import Mathlib

/-!
Shallow embedding of the catalog search and ranking core of the `dlm`
digital-library manager (files `src/dlm/cli.py`, `src/dlm/data.py`,
`src/dlm/opener.py`, `src/dlm/fzf.py`).

Strings are Lean `String`s; Python `str.lower` is modelled by
`String.toLower` (per-character lowercasing), the Python substring test
`a in b` by the list-infix relation on the underlying character lists, and
Python float scores by exact rationals (the scores involved are small
rationals 2*m/(la+lb), far from any binary64 rounding boundary relevant to
the 0.6 / 1.0 comparisons).  Python `None` parameters are `Option`;
Python truthiness of an optional string (`if ddc:`) is `truthy` below.
-/

namespace DLM

/-- Python truthiness of an optional string argument: `None` and `""` are
falsy, every other string is truthy.  Mirrors `if ddc:` / `if file_type:`
/ `if query:` in `cli.py`. -/
def truthy (o : Option String) : Bool :=
  match o with
  | none => false
  | some s => s != ""

/-- Length of the common prefix of two character lists (helper for the
longest-matching-block computation of `difflib.SequenceMatcher`). -/
def commonPrefixLen : List Char → List Char → Nat
  | a :: as, b :: bs => if a = b then commonPrefixLen as bs + 1 else 0
  | _, _ => 0

/-- Model of `difflib.SequenceMatcher.find_longest_match` on a region (no
junk: the code passes `isjunk=None`, and the autojunk heuristic only kicks
in for texts of 200+ characters, which does not change any property proved
here).  Scans start positions `i` in `a` (outer, ascending) and `j` in `b`
(inner, ascending), keeping the first strictly longer run found; this
yields the longest matching block, earliest in `a` and then earliest in
`b`, exactly as difflib's end-position scan does. -/
def bestMatchFold (a b : List Char) : Nat × Nat × Nat :=
  (List.range a.length).foldl
    (fun best i =>
      (List.range b.length).foldl
        (fun best j =>
          let k := commonPrefixLen (a.drop i) (b.drop j)
          if best.2.2 < k then (i, j, k) else best)
        best)
    (0, 0, 0)

/-- The longest matching block bundled with the bounds `i + k ≤ |a|` and
`j + k ≤ |b|`, needed for termination of the recursive block count. -/
def bestMatchS (a b : List Char) :
    {t : Nat × Nat × Nat // t.1 + t.2.2 ≤ a.length ∧ t.2.1 + t.2.2 ≤ b.length} :=
  ⟨bestMatchFold a b, by
    have hcp : ∀ xs ys : List Char,
        commonPrefixLen xs ys ≤ xs.length ∧ commonPrefixLen xs ys ≤ ys.length := by
      intro xs
      induction xs with
      | nil => intro ys; cases ys <;> simp [commonPrefixLen]
      | cons x xs ih =>
        intro ys
        cases ys with
        | nil => simp [commonPrefixLen]
        | cons y ys =>
          simp only [commonPrefixLen]
          split
          · have h := ih ys
            constructor <;> · simp only [List.length_cons]; omega
          · exact ⟨Nat.zero_le _, Nat.zero_le _⟩
    unfold bestMatchFold
    refine List.foldlRecOn
      (motive := fun t : Nat × Nat × Nat =>
        t.1 + t.2.2 ≤ a.length ∧ t.2.1 + t.2.2 ≤ b.length)
      _ _ _ ⟨Nat.zero_le _, Nat.zero_le _⟩ ?_
    intro t ht i hi
    refine List.foldlRecOn
      (motive := fun t : Nat × Nat × Nat =>
        t.1 + t.2.2 ≤ a.length ∧ t.2.1 + t.2.2 ≤ b.length)
      _ _ _ ht ?_
    intro t' ht' j hj
    dsimp only
    split
    · have hia : i < a.length := List.mem_range.mp hi
      have hjb : j < b.length := List.mem_range.mp hj
      have h1 := (hcp (a.drop i) (b.drop j)).1
      have h2 := (hcp (a.drop i) (b.drop j)).2
      rw [List.length_drop] at h1
      rw [List.length_drop] at h2
      refine ⟨?_, ?_⟩
      · show i + commonPrefixLen (a.drop i) (b.drop j) ≤ a.length
        omega
      · show j + commonPrefixLen (a.drop i) (b.drop j) ≤ b.length
        omega
    · exact ht'⟩

/-- Model of the total number of matched characters summed over
`difflib.SequenceMatcher.get_matching_blocks`: the region is split at the
longest matching block and both sides are counted recursively (difflib's
queue-based recursion, expressed on list segments). -/
def matchesCount (a b : List Char) : Nat :=
  if (bestMatchS a b).val.2.2 = 0 then 0
  else
    matchesCount (a.take (bestMatchS a b).val.1) (b.take (bestMatchS a b).val.2.1)
      + (bestMatchS a b).val.2.2
      + matchesCount (a.drop ((bestMatchS a b).val.1 + (bestMatchS a b).val.2.2))
          (b.drop ((bestMatchS a b).val.2.1 + (bestMatchS a b).val.2.2))
termination_by a.length
decreasing_by
  · have hb := (bestMatchS a b).2
    simp only [List.length_take]
    omega
  · have hb := (bestMatchS a b).2
    simp only [List.length_drop]
    omega

/-- Model of difflib's `_calculate_ratio(matches, length)`:
`2.0 * matches / length`, and `1.0` when both sequences are empty. -/
def calculateRatioQ (m len : Nat) : ℚ :=
  if len = 0 then 1 else 2 * m / len

/-- Model of `SequenceMatcher(None, a, b).ratio()`. -/
def ratioQ (a b : List Char) : ℚ :=
  calculateRatioQ (matchesCount a b) (a.length + b.length)

/-- Python `s.lower()` as a character list: per-character lowercasing of
the string's code points. -/
def pyLower (s : String) : List Char := s.data.map Char.toLower

/-- Model of `fuzzy_match(query, text)` from `cli.py`: lowercase both
sides; an exact substring occurrence (`query_lower in text_lower`) scores
`1.0`; otherwise the sequence-similarity ratio.  (The `threshold=0.6`
parameter of the Python function is never used by its body and is
omitted.) -/
def fuzzy_match (query text : String) : ℚ :=
  if pyLower query <:+: pyLower text then 1
  else ratioQ (pyLower query) (pyLower text)

/-- Field selector of `search_catalog` (`cli.py` compares the `field`
argument against the literals "title", "author", "subject", "category";
`none` means all fields). -/
inductive Field
  | title
  | author
  | subject
  | category
deriving DecidableEq

/-- Catalog entry record, as read from `catalog.json`.  Python entries are
dicts accessed with `entry.get(key, default)`; an absent key is modelled by
the default value, so every field is total.  The mutable `"_score"` key the
search loop writes into the dict is the `score` field (`none` = key
absent). -/
structure Entry where
  id : String := ""
  title : String := ""
  author : String := ""
  subjects : List String := []
  category : String := ""
  ddc : String := ""
  file_type : String := ""
  score : Option ℚ := none
deriving DecidableEq

/-- Value used as the sort key in `results.sort(key=lambda x:
x.get("_score", 0), reverse=True)`. -/
def getScore (e : Entry) : ℚ := e.score.getD 0

/-- Attachment of a score to an entry record, modelling the in-place dict
write `entry["_score"] = score`. -/
def setScore (e : Entry) (s : ℚ) : Entry := {e with score := some s}

/-- Per-entry body of the `for entry in catalog` loop of `search_catalog`
(`cli.py`): `none` means the entry is skipped (`continue` on the file-type
filter, or `match` stays false), `some s` means it matches with score `s`.
Branch order is exactly the source's: file-type filter, then
`if not ddc and not query`, then `elif ddc`, then `elif query` with its
field cases. -/
def evalEntry (query : Option String) (field : Option Field)
    (file_type ddc : Option String) (fuzzy : Bool) (e : Entry) : Option ℚ :=
  if truthy file_type ∧ pyLower e.file_type ≠ pyLower (file_type.getD "") then
    none
  else if ¬ truthy ddc ∧ ¬ truthy query then
    some 1
  else if truthy ddc then
    if e.ddc ≠ "" ∧ (ddc.getD "").data <+: e.ddc.data then some 1 else none
  else
    let q := query.getD ""
    match field with
    | none =>
      let title_score := fuzzy_match q e.title
      let author_score := fuzzy_match q e.author
      let subject_scores := e.subjects.map (fun s => fuzzy_match q s)
      let category_score := fuzzy_match q e.category
      let max_score :=
        List.foldl max title_score (author_score :: category_score :: subject_scores)
      if fuzzy then
        if max_score ≥ 3/5 then some max_score else none
      else
        if max_score = 1 then some max_score else none
    | some Field.title =>
      let s := fuzzy_match q e.title
      if s ≥ (if fuzzy then (3:ℚ)/5 else 1) then some s else none
    | some Field.author =>
      let s := fuzzy_match q e.author
      if s ≥ (if fuzzy then (3:ℚ)/5 else 1) then some s else none
    | some Field.subject =>
      let scores := e.subjects.map (fun s => fuzzy_match q s)
      let s := match scores with
        | [] => 0
        | x :: xs => List.foldl max x xs
      if s ≥ (if fuzzy then (3:ℚ)/5 else 1) then some s else none
    | some Field.category =>
      let s := fuzzy_match q e.category
      if s ≥ (if fuzzy then (3:ℚ)/5 else 1) then some s else none

/-- Score the text-search branch of `search_catalog` computes for an
entry: the score of the selected field, the max over subjects for the
subject field (0 when the entry has no subjects), or the max over title,
author, category and all subjects when no field is selected. -/
def entryScore (q : String) (field : Option Field) (e : Entry) : ℚ :=
  match field with
  | none =>
    List.foldl max (fuzzy_match q e.title)
      (fuzzy_match q e.author :: fuzzy_match q e.category
        :: e.subjects.map (fun s => fuzzy_match q s))
  | some Field.title => fuzzy_match q e.title
  | some Field.author => fuzzy_match q e.author
  | some Field.subject =>
    match e.subjects.map (fun s => fuzzy_match q s) with
    | [] => 0
    | x :: xs => List.foldl max x xs
  | some Field.category => fuzzy_match q e.category

/-- The search loop of `search_catalog`: first component is the `results`
list (matched entries, in catalog order, each with `_score` written into
the record), second component is the catalog list after the loop (the same
records, mutated in place where matched). -/
def searchLoop (query : Option String) (field : Option Field)
    (file_type ddc : Option String) (fuzzy : Bool) :
    List Entry → List Entry × List Entry
  | [] => ([], [])
  | e :: rest =>
    let tail := searchLoop query field file_type ddc fuzzy rest
    match evalEntry query field file_type ddc fuzzy e with
    | some s =>
      let e' := setScore e s
      (e' :: tail.1, e' :: tail.2)
    | none => (tail.1, e :: tail.2)

/-- Python's `results.sort(key=lambda x: x.get("_score", 0), reverse=True)`:
a stable sort, descending by score (`list.sort` is stable, and
`reverse=True` reverses the comparison, not the list). -/
def pySortDesc (l : List Entry) : List Entry :=
  l.mergeSort (fun x y => decide (getScore y ≤ getScore x))

/-- Model of `search_catalog(query, field, file_type, ddc, fuzzy)` from
`cli.py`.  The loaded catalog is passed as the argument `catalog`
(`load_catalog()` in the source).  The result pair is
(returned results, state of the loaded catalog after the call) — the
second component makes the in-place `entry["_score"]` writes observable.
With no criteria at all the function returns the catalog itself,
untouched. -/
def search_catalog (query : Option String) (field : Option Field)
    (file_type ddc : Option String) (fuzzy : Bool)
    (catalog : List Entry) : List Entry × List Entry :=
  if ¬ truthy query ∧ field = none ∧ ¬ truthy file_type ∧ ¬ truthy ddc then
    (catalog, catalog)
  else
    let lp := searchLoop query field file_type ddc fuzzy catalog
    (pySortDesc lp.1, lp.2)

/-- Reading-progress record for one entry id, as stored in
`reading_progress.json` (`none` = key absent from the JSON object). -/
structure ProgRec where
  last_opened : Option String := none
  page : Option Int := none
deriving DecidableEq

/-- Progress overlay: a JSON object mapping entry ids to records,
modelled as an association list in insertion order. -/
def setP : List (String × ProgRec) → String → ProgRec → List (String × ProgRec)
  | [], k, r => [(k, r)]
  | (k', r') :: rest, k, r =>
    if k' = k then (k, r) :: rest else (k', r') :: setP rest k r

/-- Lookup in the progress overlay (`progress_data[file_id]` /
`file_id in progress_data`). -/
def lookupP (m : List (String × ProgRec)) (k : String) : Option ProgRec :=
  (m.find? (fun p => p.1 == k)).map (fun p => p.2)

/-- Model of `load_progress()` from `data.py`.  The state of
`PROGRESS_FILE` is the argument: `none` — the file does not exist;
`some none` — the file exists but `json.load` fails on its contents;
`some (some m)` — the file exists and parses to `m`.  The source reads
the file with no exception handling, so a parse failure propagates as an
error (`json.JSONDecodeError`); only the absent-file case yields the
empty mapping. -/
def load_progress (file : Option (Option (List (String × ProgRec)))) :
    Except String (List (String × ProgRec)) :=
  match file with
  | none => Except.ok []
  | some none => Except.error "JSONDecodeError"
  | some (some m) => Except.ok m

/-- Model of `_update_progress(file_id, set_page)` from `opener.py`.
The freshly reloaded overlay (`load_progress()` in the source) is the
argument `progress_data`; `datetime.now().strftime("%Y-%m-%d")` is the
argument `today`; the returned overlay is what `save_progress` persists.
A falsy `file_id` returns immediately without touching anything. -/
def update_progress (file_id : String) (set_page : Option Int)
    (progress_data : List (String × ProgRec)) (today : String) :
    List (String × ProgRec) :=
  if file_id = "" then progress_data
  else
    let r0 := (lookupP progress_data file_id).getD {}
    let r1 := {r0 with last_opened := some today}
    let r2 := match set_page with
      | some p => {r1 with page := some p}
      | none => r1
    setP progress_data file_id r2

/-- Outcome reported by `update_page_command` (its prints): no match,
an ambiguous query listing the first five candidates, or a successful
update of the single matching entry. -/
inductive UpdateOutcome
  | noMatch
  | multiple (candidates : List Entry)
  | updated (entry : Entry)
deriving DecidableEq

/-- Model of `update_page_command(title_query, page)` from `fzf.py`:
case-insensitive title-substring lookup; zero matches and two-or-more
matches return without saving; a unique match gets `page` and
`last_opened` written and the overlay persisted.  Returns the overlay as
persisted (unchanged when nothing is saved) plus the reported outcome. -/
def update_page_command (title_query : String) (page : Int)
    (catalog : List Entry) (progress_data : List (String × ProgRec))
    (today : String) : List (String × ProgRec) × UpdateOutcome :=
  let ms := catalog.filter
    (fun e => decide (pyLower title_query <:+: pyLower e.title))
  if ms.isEmpty then (progress_data, UpdateOutcome.noMatch)
  else if 1 < ms.length then (progress_data, UpdateOutcome.multiple (ms.take 5))
  else
    match ms with
    | [] => (progress_data, UpdateOutcome.noMatch)
    | entry :: _ =>
      let file_id := entry.id
      let r0 := (lookupP progress_data file_id).getD {}
      let r1 := {r0 with page := some page, last_opened := some today}
      (setP progress_data file_id r1, UpdateOutcome.updated entry)

/-! Helper lemmas shared by the claim theorems. -/

/-- The total number of matched characters is bounded by the length of
either sequence (the matching blocks are disjoint in both). -/
theorem matchesCount_le (a b : List Char) :
    matchesCount a b ≤ a.length ∧ matchesCount a b ≤ b.length := by
  have H : ∀ n (a b : List Char), a.length ≤ n →
      matchesCount a b ≤ a.length ∧ matchesCount a b ≤ b.length := by
    intro n
    induction n with
    | zero =>
      intro a b ha
      unfold matchesCount
      split
      · exact ⟨Nat.zero_le _, Nat.zero_le _⟩
      · have hb := (bestMatchS a b).2
        omega
    | succ n ih =>
      intro a b ha
      unfold matchesCount
      split
      · exact ⟨Nat.zero_le _, Nat.zero_le _⟩
      · have hb := (bestMatchS a b).2
        obtain ⟨hb1, hb2⟩ := hb
        have e1 := ih (a.take (bestMatchS a b).val.1)
          (b.take (bestMatchS a b).val.2.1)
          (by simp only [List.length_take]; omega)
        have e2 := ih
          (a.drop ((bestMatchS a b).val.1 + (bestMatchS a b).val.2.2))
          (b.drop ((bestMatchS a b).val.2.1 + (bestMatchS a b).val.2.2))
          (by simp only [List.length_drop]; omega)
        simp only [List.length_take, List.length_drop] at e1 e2
        omega
  exact H a.length a b le_rfl

/-- The similarity ratio never exceeds 1. -/
theorem ratioQ_le_one (a b : List Char) : ratioQ a b ≤ 1 := by
  unfold ratioQ calculateRatioQ
  split
  · exact le_refl 1
  · rename_i hlen
    have h := matchesCount_le a b
    have hpos : (0:ℚ) < ((a.length + b.length : Nat) : ℚ) := by
      exact_mod_cast Nat.pos_of_ne_zero hlen
    rw [div_le_one hpos]
    have h2 : 2 * matchesCount a b ≤ a.length + b.length := by omega
    exact_mod_cast h2

/-- Scores returned by the Match Scorer never exceed 1. -/
theorem fuzzy_match_le_one (q t : String) : fuzzy_match q t ≤ 1 := by
  unfold fuzzy_match
  split
  · exact le_refl 1
  · exact ratioQ_le_one _ _

/-- Folding `max` over a list of bounded values stays bounded. -/
theorem foldl_max_le {c : ℚ} :
    ∀ (l : List ℚ) (a : ℚ), a ≤ c → (∀ x ∈ l, x ≤ c) → List.foldl max a l ≤ c := by
  intro l
  induction l with
  | nil => intro a ha _; exact ha
  | cons x xs ih =>
    intro a ha hl
    exact ih (max a x) (max_le ha (hl x (by simp)))
      (fun y hy => hl y (List.mem_cons_of_mem x hy))

/-- Every per-entry score computed by the text-search branch is at
most 1. -/
theorem entryScore_le_one (q : String) (f : Option Field) (e : Entry) :
    entryScore q f e ≤ 1 := by
  cases f with
  | none =>
    show List.foldl max (fuzzy_match q e.title)
      (fuzzy_match q e.author :: fuzzy_match q e.category
        :: e.subjects.map (fun s => fuzzy_match q s)) ≤ 1
    refine foldl_max_le _ _ (fuzzy_match_le_one q e.title) ?_
    intro x hx
    simp only [List.mem_cons, List.mem_map] at hx
    rcases hx with h | h | ⟨s, _, h⟩
    · exact h ▸ fuzzy_match_le_one q e.author
    · exact h ▸ fuzzy_match_le_one q e.category
    · exact h ▸ fuzzy_match_le_one q s
  | some ff =>
    cases ff with
    | title => exact fuzzy_match_le_one q e.title
    | author => exact fuzzy_match_le_one q e.author
    | category => exact fuzzy_match_le_one q e.category
    | subject =>
      cases h : e.subjects.map (fun s => fuzzy_match q s) with
      | nil => simp [entryScore, h]
      | cons x xs =>
        have hx : ∀ y ∈ x :: xs, y ≤ 1 := by
          intro y hy
          have hy' : y ∈ e.subjects.map (fun s => fuzzy_match q s) := by
            rw [h]; exact hy
          obtain ⟨s, _, hs⟩ := List.mem_map.mp hy'
          exact hs ▸ fuzzy_match_le_one q s
        simpa [entryScore, h] using
          foldl_max_le xs x (hx x (by simp))
            (fun y hy => hx y (List.mem_cons_of_mem x hy))

/-- For a score bounded by 1, the source's `score >= 1.0` test agrees
with the exact-equality test. -/
theorem ge_one_ite (s : ℚ) (hle : s ≤ 1) :
    (if s ≥ 1 then some s else none) = (if s = 1 then some s else (none : Option ℚ)) := by
  by_cases h1 : s = 1
  · rw [if_pos h1, if_pos (show s ≥ 1 from le_of_eq h1.symm)]
  · rw [if_neg h1, if_neg (fun hge => h1 (le_antisymm hle hge))]

/-- The search loop, unrolled: results are the matched entries in catalog
order with their scores written in, and the post-loop catalog is the input
list with exactly the matched records mutated. -/
theorem searchLoop_eq (q : Option String) (f : Option Field)
    (ft d : Option String) (fz : Bool) (catalog : List Entry) :
    searchLoop q f ft d fz catalog =
      (catalog.filterMap
        (fun e => (evalEntry q f ft d fz e).map (fun s => setScore e s)),
       catalog.map (fun e =>
         match evalEntry q f ft d fz e with
         | some s => setScore e s
         | none => e)) := by
  induction catalog with
  | nil => rfl
  | cons e rest ih =>
    simp only [searchLoop, List.filterMap_cons, List.map_cons, ih]
    cases h : evalEntry q f ft d fz e <;> simp [h]

/-- Lookup after an insertion-or-update of the same key. -/
theorem lookupP_setP (m : List (String × ProgRec)) (k : String) (r : ProgRec) :
    lookupP (setP m k r) k = some r := by
  induction m with
  | nil => simp [setP, lookupP]
  | cons p rest ih =>
    obtain ⟨k', r'⟩ := p
    by_cases h : k' = k
    · subst h
      simp [setP, lookupP]
    · rw [setP, if_neg h]
      unfold lookupP
      rw [List.find?_cons_of_neg]
      · exact ih
      · simp [h]

/-! Claim theorems. -/

/-- C1, counterexample: `search_catalog` does NOT leave the loaded catalog
unchanged — a DDC search over a one-entry catalog writes `_score` into the
catalog's own entry record, so the catalog after the call differs from the
catalog before it. -/
theorem search_catalog_mutates_counterexample :
    (search_catalog none none none (some "7") true
        [{ title := "t", ddc := "780" }]).2 ≠ [{ title := "t", ddc := "780" }] := by
  decide

/-- C1, amended: `search_catalog` attaches scores to the catalog's own
entry records, not to copies.  When any criterion is given, the loop
mutates exactly the matched entries in place (writing `_score` into the
record) and leaves unmatched entries untouched; the returned results are
those same mutated records, stably sorted.  With no criteria the catalog
is returned as is. -/
theorem search_catalog_inplace_scores (q : Option String) (f : Option Field)
    (ft d : Option String) (fz : Bool) (catalog : List Entry) :
    search_catalog q f ft d fz catalog =
      if ¬ truthy q ∧ f = none ∧ ¬ truthy ft ∧ ¬ truthy d then
        (catalog, catalog)
      else
        (pySortDesc (catalog.filterMap
            (fun e => (evalEntry q f ft d fz e).map (fun s => setScore e s))),
         catalog.map (fun e =>
           match evalEntry q f ft d fz e with
           | some s => setScore e s
           | none => e)) := by
  unfold search_catalog
  split
  · rfl
  · show (pySortDesc (searchLoop q f ft d fz catalog).1,
        (searchLoop q f ft d fz catalog).2) = _
    rw [searchLoop_eq]

/-- C2: the claim that `load_progress` never fails is wrong about the
corrupt-file case.  The absent-file case does yield the empty mapping, but
the source wraps `json.load` in no exception handler, so an existing but
unparseable progress file raises instead of being treated as empty. -/
theorem load_progress_corrupt_raises :
    load_progress (some none) = Except.error "JSONDecodeError" ∧
    load_progress none = Except.ok [] :=
  ⟨rfl, rfl⟩

/-- C5: substring privilege — whenever the lowercased query occurs as a
substring of the lowercased text and the query is non-empty, the Match
Scorer returns exactly 1, regardless of the similarity ratio. -/
theorem substring_privilege (q t : String) (hq : q ≠ "")
    (hsub : pyLower q <:+: pyLower t) : fuzzy_match q t = 1 := by
  have _hq := hq
  unfold fuzzy_match
  rw [if_pos hsub]

/-- C5 witness at a concrete input. -/
theorem substring_privilege_witness :
    ("Bee" : String) ≠ "" ∧
    pyLower "Bee" <:+: pyLower "Beethoven" ∧
    fuzzy_match "Bee" "Beethoven" = 1 :=
  ⟨by decide, by decide,
    substring_privilege "Bee" "Beethoven" (by decide) (by decide)⟩

/-- C10: the Match Scorer applied to the empty query returns exactly 1 for
every text (the empty string is a substring of every string), and in
particular on the empty text, where the substring branch overrides any
empty-text rule. -/
theorem empty_query_scores_one :
    (∀ t : String, fuzzy_match "" t = 1) ∧ fuzzy_match "" "" = 1 := by
  constructor
  · intro t
    unfold fuzzy_match
    rw [if_pos ⟨[], pyLower t, by simp [pyLower]⟩]
  · decide

/-- C3: with a (non-empty, i.e. truthy) classification filter supplied, an
entry matches iff its classification code literally starts with the filter
string — a string-prefix test, not a numeric range — the match scores
exactly 1, and the free-text query argument is ignored: the evaluation is
the same for every `q`. -/
theorem classification_filter_is_string_start (q : Option String)
    (f : Option Field) (fz : Bool) (d : String) (e : Entry) (hd : d ≠ "") :
    evalEntry q f none (some d) fz e =
      (if d.data <+: e.ddc.data then some 1 else none) := by
  unfold evalEntry
  rw [if_neg (by simp [truthy])]
  rw [if_neg (by simp [truthy, hd])]
  rw [if_pos (by simp [truthy, hd])]
  simp only [Option.getD_some]
  by_cases hp : d.data <+: e.ddc.data
  · have hne : e.ddc ≠ "" := by
      intro h0
      rw [h0] at hp
      have hnil : d.data = [] := List.prefix_nil.mp hp
      exact hd (String.ext hnil)
    rw [if_pos ⟨hne, hp⟩, if_pos hp]
  · rw [if_neg (fun hc => hp hc.2), if_neg hp]

/-- C3 witness: the classification filter "780" against the code "781.65",
with a free-text query also supplied — "781.65" does not start with "780",
so the entry does not match. -/
theorem classification_filter_witness :
    ("780" : String) ≠ "" ∧
    evalEntry (some "Beetoven") none none (some "780") true
        { title := "x", ddc := "781.65" } =
      (if ("780" : String).data <+: ("781.65" : String).data then some 1 else none) ∧
    evalEntry (some "Beetoven") none none (some "780") true
        { title := "x", ddc := "781.65" } = none :=
  ⟨by decide,
   classification_filter_is_string_start (some "Beetoven") none true "780"
     { title := "x", ddc := "781.65" } (by decide),
   by decide⟩

/-- C7: an entry whose `file_type` differs (case-insensitively) from a
truthy `file_type` filter is dropped by `continue` before any scoring, and
such a record never appears in the results of `search_catalog`, whatever
the query, field, classification filter, fuzziness, or catalog. -/
theorem file_type_filter_excludes (q : Option String) (f : Option Field)
    (d : Option String) (fz : Bool) (catalog : List Entry)
    (ft : String) (e : Entry) (hft : ft ≠ "")
    (hmm : pyLower e.file_type ≠ pyLower ft) :
    evalEntry q f (some ft) d fz e = none ∧
    e ∉ (search_catalog q f (some ft) d fz catalog).1 := by
  have heval : ∀ e' : Entry, pyLower e'.file_type ≠ pyLower ft →
      evalEntry q f (some ft) d fz e' = none := by
    intro e' hmm'
    unfold evalEntry
    rw [if_pos ⟨by simp [truthy, hft], by simpa using hmm'⟩]
  have key : ∀ c : List Entry, e ∉ (searchLoop q f (some ft) d fz c).1 := by
    intro c
    induction c with
    | nil => simp [searchLoop]
    | cons e0 rest ih =>
      cases h0 : evalEntry q f (some ft) d fz e0 with
      | none =>
        simp only [searchLoop, h0]
        exact ih
      | some s =>
        simp only [searchLoop, h0, List.mem_cons]
        rintro (hc | hc)
        · have hpass : pyLower e0.file_type = pyLower ft := by
            by_contra hne
            rw [heval e0 hne] at h0
            simp at h0
          have hfe : pyLower e.file_type = pyLower e0.file_type := by
            rw [hc]
            rfl
          exact hmm (hfe.trans hpass)
        · exact ih hc
  refine ⟨heval e hmm, ?_⟩
  unfold search_catalog
  split
  · rename_i h
    simp [truthy, hft] at h
  · intro hmem
    have hmem' : e ∈ (searchLoop q f (some ft) d fz catalog).1 :=
      (List.mergeSort_perm _ _).mem_iff.mp hmem
    exact key catalog hmem'

/-- C7 witness: an epub entry whose title matches the query perfectly is
still excluded by the `--type pdf` filter. -/
theorem file_type_filter_excludes_witness :
    ("pdf" : String) ≠ "" ∧
    pyLower ("epub" : String) ≠ pyLower "pdf" ∧
    (evalEntry (some "zzz") none (some "pdf") none true
        { title := "zzz", file_type := "epub" } = none ∧
     ({ title := "zzz", file_type := "epub" } : Entry) ∉
       (search_catalog (some "zzz") none (some "pdf") none true
         [{ title := "zzz", file_type := "epub" }]).1) :=
  ⟨by decide, by decide,
   file_type_filter_excludes (some "zzz") none none true
     [{ title := "zzz", file_type := "epub" }] "pdf"
     { title := "zzz", file_type := "epub" } (by decide) (by decide)⟩

/-- C8: for an id with an existing progress record holding a page,
recording an open without an explicit page sets `last_opened` to the
current date and leaves the stored page untouched; doing it twice in a row
still preserves the page; and the page field is written exactly when an
explicit page is supplied. -/
theorem record_open_preserves_page (fid : String)
    (m : List (String × ProgRec)) (today today' : String) (r : ProgRec)
    (n : Int) (hfid : fid ≠ "") (hr : lookupP m fid = some r)
    (hp : r.page = some n) :
    lookupP (update_progress fid none m today) fid =
      some { last_opened := some today, page := some n } ∧
    lookupP (update_progress fid none
        (update_progress fid none m today) today') fid =
      some { last_opened := some today', page := some n } ∧
    ∀ k : Int,
      lookupP (update_progress fid (some k) m today) fid =
        some { last_opened := some today, page := some k } := by
  obtain ⟨lo, pg⟩ := r
  have hp' : pg = some n := hp
  subst hp'
  have h1 : update_progress fid none m today =
      setP m fid { last_opened := some today, page := some n } := by
    unfold update_progress
    rw [if_neg hfid, hr]
    rfl
  refine ⟨?_, ?_, ?_⟩
  · rw [h1, lookupP_setP]
  · have h2 : update_progress fid none (update_progress fid none m today) today' =
        setP (setP m fid { last_opened := some today, page := some n }) fid
          { last_opened := some today', page := some n } := by
      rw [h1]
      unfold update_progress
      rw [if_neg hfid, lookupP_setP]
      rfl
    rw [h2, lookupP_setP]
  · intro k
    have h3 : update_progress fid (some k) m today =
        setP m fid { last_opened := some today, page := some k } := by
      unfold update_progress
      rw [if_neg hfid, hr]
    rw [h3, lookupP_setP]

/-- C8 witness at a concrete overlay. -/
theorem record_open_preserves_page_witness :
    ("B1" : String) ≠ "" ∧
    lookupP [("B1", { last_opened := some "2025-01-01", page := some 42 })] "B1" =
      some { last_opened := some "2025-01-01", page := some 42 } ∧
    ({ last_opened := some "2025-01-01", page := some 42 } : ProgRec).page = some 42 ∧
    (lookupP (update_progress "B1" none
        [("B1", { last_opened := some "2025-01-01", page := some 42 })] "2025-02-02") "B1" =
      some { last_opened := some "2025-02-02", page := some 42 } ∧
     lookupP (update_progress "B1" none
        (update_progress "B1" none
          [("B1", { last_opened := some "2025-01-01", page := some 42 })] "2025-02-02")
        "2025-03-03") "B1" =
      some { last_opened := some "2025-03-03", page := some 42 } ∧
     ∀ k : Int,
       lookupP (update_progress "B1" (some k)
          [("B1", { last_opened := some "2025-01-01", page := some 42 })] "2025-02-02") "B1" =
        some { last_opened := some "2025-02-02", page := some k }) :=
  ⟨by decide, by decide, rfl,
   record_open_preserves_page "B1"
     [("B1", { last_opened := some "2025-01-01", page := some 42 })]
     "2025-02-02" "2025-03-03"
     { last_opened := some "2025-01-01", page := some 42 } 42
     (by decide) (by decide) rfl⟩

/-- C9: when the title substring matches two or more catalog entries, the
set-page command persists nothing — the overlay comes back exactly as it
was — and reports the matching candidates (the first five) instead of
updating the first match. -/
theorem update_page_refuses_ambiguous (tq : String) (page : Int)
    (catalog : List Entry) (m : List (String × ProgRec)) (today : String)
    (hmulti : 2 ≤ (catalog.filter
        (fun e => decide (pyLower tq <:+: pyLower e.title))).length) :
    update_page_command tq page catalog m today =
      (m, UpdateOutcome.multiple ((catalog.filter
          (fun e => decide (pyLower tq <:+: pyLower e.title))).take 5)) := by
  simp only [update_page_command]
  have hne : ¬ (catalog.filter
      (fun e => decide (pyLower tq <:+: pyLower e.title))).isEmpty = true := by
    rw [List.isEmpty_iff]
    intro h
    rw [h] at hmulti
    simp at hmulti
  rw [if_neg hne, if_pos (by omega)]

/-- C9 witness: two entries match the substring "plato"; the overlay is
returned unchanged together with the candidate list. -/
theorem update_page_refuses_ambiguous_witness :
    2 ≤ ([{ title := "Plato Republic" }, { title := "Plato Laws" }].filter
        (fun e : Entry => decide (pyLower "plato" <:+: pyLower e.title))).length ∧
    update_page_command "plato" 7
        [{ title := "Plato Republic" }, { title := "Plato Laws" }]
        [("X", { page := some 3 })] "2025-02-02" =
      ([("X", { page := some 3 })],
       UpdateOutcome.multiple
         (([{ title := "Plato Republic" }, { title := "Plato Laws" }].filter
            (fun e : Entry => decide (pyLower "plato" <:+: pyLower e.title))).take 5)) :=
  ⟨by decide,
   update_page_refuses_ambiguous "plato" 7
     [{ title := "Plato Republic" }, { title := "Plato Laws" }]
     [("X", { page := some 3 })] "2025-02-02" (by decide)⟩

/-- C4: for an entry that reaches the free-text branch (truthy query, no
classification filter, past the file-type filter), the entry matches iff
its computed score clears the threshold: at least 3/5 when `fuzzy` is
true, exactly 1 when `fuzzy` is false — uniformly for the all-fields
maximum and for each specific field (where the source's `score >= 1.0`
test coincides with equality because scores never exceed 1). -/
theorem text_search_threshold (q : String) (f : Option Field)
    (ft d : Option String) (fz : Bool) (e : Entry)
    (hq : q ≠ "") (hd : truthy d = false)
    (hft : ¬ (truthy ft = true ∧ pyLower e.file_type ≠ pyLower (ft.getD ""))) :
    evalEntry (some q) f ft d fz e =
      (if fz then
        (if entryScore q f e ≥ 3/5 then some (entryScore q f e) else none)
       else
        (if entryScore q f e = 1 then some (entryScore q f e) else none)) := by
  unfold evalEntry
  rw [if_neg hft]
  rw [if_neg (fun hcon => hcon.2 (by simp [truthy, hq]))]
  rw [if_neg (by simp [hd])]
  simp only [Option.getD_some]
  cases f with
  | none => rfl
  | some ff =>
    cases ff <;> cases fz <;>
      first
        | rfl
        | exact ge_one_ite _ (entryScore_le_one q (some Field.title) e)
        | exact ge_one_ite _ (entryScore_le_one q (some Field.author) e)
        | exact ge_one_ite _ (entryScore_le_one q (some Field.subject) e)
        | exact ge_one_ite _ (entryScore_le_one q (some Field.category) e)

/-- C4 witness: the typo query "Beetoven" against a "Beethoven Sonatas"
entry, all-fields fuzzy search. -/
theorem text_search_threshold_witness :
    ("Beetoven" : String) ≠ "" ∧
    truthy (none : Option String) = false ∧
    ¬ (truthy (none : Option String) = true ∧
       pyLower ({ title := "Beethoven Sonatas" } : Entry).file_type ≠
         pyLower ((none : Option String).getD "")) ∧
    evalEntry (some "Beetoven") none none none true { title := "Beethoven Sonatas" } =
      (if (true : Bool) then
        (if entryScore "Beetoven" none { title := "Beethoven Sonatas" } ≥ 3/5 then
          some (entryScore "Beetoven" none { title := "Beethoven Sonatas" })
         else none)
       else
        (if entryScore "Beetoven" none { title := "Beethoven Sonatas" } = 1 then
          some (entryScore "Beetoven" none { title := "Beethoven Sonatas" })
         else none)) :=
  ⟨by decide, rfl, by decide,
   text_search_threshold "Beetoven" none none none true
     { title := "Beethoven Sonatas" } (by decide) rfl (by decide)⟩

/-- C6: whenever any search criterion is active, the result list of
`search_catalog` is ordered by non-increasing score, and for every score
value the results carrying that score are exactly the matched entries with
that score in their original catalog order (the sort is stable, with no
secondary key). -/
theorem results_sorted_and_stable (q : Option String) (f : Option Field)
    (ft d : Option String) (fz : Bool) (catalog : List Entry)
    (hcrit : truthy q = true ∨ f ≠ none ∨ truthy ft = true ∨ truthy d = true) :
    List.Pairwise (fun x y => getScore y ≤ getScore x)
      (search_catalog q f ft d fz catalog).1 ∧
    ∀ s : ℚ,
      (search_catalog q f ft d fz catalog).1.filter
          (fun e => decide (getScore e = s)) =
        (searchLoop q f ft d fz catalog).1.filter
          (fun e => decide (getScore e = s)) := by
  have hC : ¬ (¬ truthy q = true ∧ f = none ∧
      ¬ truthy ft = true ∧ ¬ truthy d = true) := by
    intro hc
    rcases hcrit with h | h | h | h
    · exact hc.1 h
    · exact h hc.2.1
    · exact hc.2.2.1 h
    · exact hc.2.2.2 h
  have hres : (search_catalog q f ft d fz catalog).1 =
      (searchLoop q f ft d fz catalog).1.mergeSort
        (fun x y => decide (getScore y ≤ getScore x)) := by
    unfold search_catalog
    rw [if_neg hC]
    rfl
  have htrans : ∀ a b c : Entry,
      (fun x y : Entry => decide (getScore y ≤ getScore x)) a b = true →
      (fun x y : Entry => decide (getScore y ≤ getScore x)) b c = true →
      (fun x y : Entry => decide (getScore y ≤ getScore x)) a c = true := by
    intro a b c h1 h2
    simp only [decide_eq_true_eq] at h1 h2 ⊢
    exact le_trans h2 h1
  have htot : ∀ a b : Entry,
      ((fun x y : Entry => decide (getScore y ≤ getScore x)) a b ||
       (fun x y : Entry => decide (getScore y ≤ getScore x)) b a) = true := by
    intro a b
    simp only [Bool.or_eq_true, decide_eq_true_eq]
    exact le_total (getScore b) (getScore a)
  constructor
  · rw [hres]
    exact (List.sorted_mergeSort htrans htot
        ((searchLoop q f ft d fz catalog).1)).imp
      (fun h => of_decide_eq_true h)
  · intro s
    rw [hres]
    have hallp : ∀ x ∈ (searchLoop q f ft d fz catalog).1.filter
        (fun e => decide (getScore e = s)),
        (fun e : Entry => decide (getScore e = s)) x = true :=
      fun x hx => (List.mem_filter.mp hx).2
    have hpairA : ((searchLoop q f ft d fz catalog).1.filter
        (fun e => decide (getScore e = s))).Pairwise
        (fun a b => (fun x y : Entry => decide (getScore y ≤ getScore x)) a b = true) := by
      apply List.pairwise_of_forall_mem_list
      intro a ha b hb
      have ha' : getScore a = s := of_decide_eq_true (hallp a ha)
      have hb' : getScore b = s := of_decide_eq_true (hallp b hb)
      simp only [decide_eq_true_eq]
      rw [ha', hb']
    have hA : ((searchLoop q f ft d fz catalog).1.filter
        (fun e => decide (getScore e = s))).Sublist
        ((searchLoop q f ft d fz catalog).1.mergeSort
          (fun x y => decide (getScore y ≤ getScore x))) :=
      List.sublist_mergeSort htrans htot hpairA
        (List.filter_sublist (searchLoop q f ft d fz catalog).1)
    have hAB : ((searchLoop q f ft d fz catalog).1.filter
        (fun e => decide (getScore e = s))).Sublist
        (((searchLoop q f ft d fz catalog).1.mergeSort
            (fun x y => decide (getScore y ≤ getScore x))).filter
          (fun e => decide (getScore e = s))) := by
      have h2 := List.Sublist.filter (fun e : Entry => decide (getScore e = s)) hA
      rwa [List.filter_eq_self.mpr hallp] at h2
    have hpermf :
        ((((searchLoop q f ft d fz catalog).1.mergeSort
            (fun x y => decide (getScore y ≤ getScore x))).filter
          (fun e => decide (getScore e = s)))).Perm
        ((searchLoop q f ft d fz catalog).1.filter
          (fun e => decide (getScore e = s))) :=
      (List.mergeSort_perm (searchLoop q f ft d fz catalog).1 _).filter _
    exact (hAB.eq_of_length hpermf.length_eq.symm).symm

/-- C6 witness: a DDC search matching two entries with equal score 1 and
skipping a third; the sortedness and stability statement holds at this
concrete catalog. -/
theorem results_sorted_and_stable_witness :
    (truthy (none : Option String) = true ∨ (none : Option Field) ≠ none ∨
     truthy (none : Option String) = true ∨ truthy (some "78") = true) ∧
    (List.Pairwise (fun x y => getScore y ≤ getScore x)
      (search_catalog none none none (some "78") true
        [{ id := "a", ddc := "780" }, { id := "b", ddc := "150" },
         { id := "c", ddc := "781.65" }]).1 ∧
    ∀ s : ℚ,
      (search_catalog none none none (some "78") true
        [{ id := "a", ddc := "780" }, { id := "b", ddc := "150" },
         { id := "c", ddc := "781.65" }]).1.filter
          (fun e => decide (getScore e = s)) =
        (searchLoop none none none (some "78") true
          [{ id := "a", ddc := "780" }, { id := "b", ddc := "150" },
           { id := "c", ddc := "781.65" }]).1.filter
          (fun e => decide (getScore e = s))) :=
  ⟨by decide,
   results_sorted_and_stable none none none (some "78") true
     [{ id := "a", ddc := "780" }, { id := "b", ddc := "150" },
      { id := "c", ddc := "781.65" }] (by decide)⟩

end DLM
